import Mathlib

/-!
Verification of the filesystem MCP server's path-safety core and streaming
helpers, as a shallow embedding of the Go sources.

Modelling conventions:

* File contents and paths are Lean `String`s; Go operates on bytes, so each
  `Char` stands for one byte (all inputs considered are ASCII).
* OS calls (`os.Lstat`, `os.Stat`, `filepath.EvalSymlinks`, `os.Getwd`,
  `os.UserHomeDir`, `os.ReadFile`) are oracles collected in an `Env` record:
  the embedding is parametric in their behaviour, exactly as the Go code is a
  client of the syscall layer.  Only the fields of the returned `os.FileInfo`
  that the sources inspect (symlink bit, directory bit, permission bits) are
  modelled.
* Mutating calls (`os.Mkdir`, `os.MkdirAll`, `os.Rename` of the temp file,
  `os.Remove`) are recorded as effect traces; their raw-I/O failure branches
  in the Go code are plain early returns with no logic, and are modelled as
  succeeding.
* Go `path/filepath` functions (`Clean`, `Dir`, `Base`, `Join`, `Rel`) are
  modelled for the Unix separator convention, which is the configuration the
  repository's tests run under.
-/

deriving instance DecidableEq for Except

namespace FsMcp

/-! ## Models of Go `strings` and `path/filepath` helpers (Unix) -/

/-- Split a character list at every occurrence of `sep`; always nonempty and
the segments never contain `sep` (Go `strings.Split` for a one-byte
separator). -/
def splitOnChar (sep : Char) : List Char → List (List Char)
  | [] => [[]]
  | c :: rest =>
    let r := splitOnChar sep rest
    if c = sep then [] :: r
    else (c :: r.headD []) :: r.tail

/-- Go `strings.Split` for a one-byte separator, on `String`. -/
def strSplitOn (sep : Char) (s : String) : List String :=
  (splitOnChar sep s.data).map String.mk

/-- Go `strings.HasPrefix`. -/
def strStartsWith (s p : String) : Bool :=
  p.data.isPrefixOf s.data

/-- Go `strings.HasSuffix`. -/
def strEndsWith (s p : String) : Bool :=
  p.data.reverse.isPrefixOf s.data.reverse

/-- Go `unicode.IsSpace` restricted to the Latin-1 range, which is all the
sources rely on (`strings.TrimSpace`). -/
def goIsSpace (c : Char) : Bool :=
  c = ' ' || c = '\t' || c = '\n' || c = (Char.ofNat 0x0B) || c = (Char.ofNat 0x0C) ||
  c = '\r' || c = (Char.ofNat 0x85) || c = (Char.ofNat 0xA0)

/-- Go `strings.TrimSpace`. -/
def trimSpace (s : String) : String :=
  String.mk (((s.data.dropWhile goIsSpace).reverse.dropWhile goIsSpace).reverse)

/-- Go `strings.ContainsRune(path, 0)`: does the string contain a NUL byte? -/
def containsNul (s : String) : Bool :=
  s.data.any (fun c => c = Char.ofNat 0)

/-- Go `filepath.IsAbs` on Unix. -/
def isAbsolute (p : String) : Bool :=
  strStartsWith p "/"

/-- One step of Go `filepath.Clean`'s element processing: fold the split
components, dropping `""`/`"."` and resolving `".."` lexically. -/
def cleanComps (rooted : Bool) (comps : List String) : List String :=
  comps.foldl
    (fun acc c =>
      if c = "" || c = "." then acc
      else if c = ".." then
        if rooted then acc.dropLast
        else if acc = [] || acc.getLast? = some ".." then acc ++ [".."]
        else acc.dropLast
      else acc ++ [c]) []

/-- Go `filepath.Clean` on Unix. -/
def clean (p : String) : String :=
  if p = "" then "."
  else
    let rooted := strStartsWith p "/"
    let comps := cleanComps rooted (strSplitOn '/' p)
    let joined := String.intercalate "/" comps
    if rooted then "/" ++ joined
    else if joined = "" then "." else joined

/-- Go `filepath.Dir` on Unix: everything up to and including the final
separator, cleaned; `"."` when there is no separator. -/
def dirPath (p : String) : String :=
  match (p.data.reverse.findIdx? (fun c => c = '/')) with
  | none => "."
  | some k => clean (String.mk (p.data.take (p.data.length - k)))

/-- Go `filepath.Base` on Unix. -/
def basePath (p : String) : String :=
  if p = "" then "."
  else
    let noTrail := p.data.reverse.dropWhile (fun c => c = '/')
    if noTrail = [] then "/"
    else String.mk ((noTrail.takeWhile (fun c => c ≠ '/')).reverse)

/-- Go `filepath.Join` of two elements: empty elements are dropped and the
result is cleaned. -/
def joinPath (a b : String) : String :=
  if a = "" && b = "" then ""
  else if a = "" then clean b
  else if b = "" then clean a
  else clean (a ++ "/" ++ b)

/-- Split a cleaned path into its components (no empties; `"."` has none). -/
def pathComps (p : String) : List String :=
  if p = "." then []
  else (strSplitOn '/' p).filter (fun c => c ≠ "")

/-- Length of the longest common component run. -/
def commonLen : List String → List String → Nat
  | a :: as_, b :: bs => if a = b then commonLen as_ bs + 1 else 0
  | _, _ => 0

/-- Go `filepath.Rel` on Unix (behavioural model): clean both paths, require
matching rootedness, strip the common component run; error when the base
retains `..` components. -/
def relPath (base targ : String) : Except Unit String :=
  let b := clean base
  let t := clean targ
  if b = t then .ok "."
  else if isAbsolute b ≠ isAbsolute t then .error ()
  else
    let bs := pathComps b
    let ts := pathComps t
    let n := commonLen bs ts
    let brem := bs.drop n
    if brem.contains ".." then .error ()
    else
      .ok (String.intercalate "/" (List.replicate brem.length ".." ++ ts.drop n))

/-! ## Filesystem oracle -/

/-- The `os.FileInfo` fields the sources inspect. -/
structure FileInfo where
  isSymlink : Bool
  isDir : Bool
  perm : Nat
deriving Repr, DecidableEq

/-- OS error classification: the sources only distinguish `os.IsNotExist`
from every other error. -/
inductive FsErr
  | notExist
  | other
deriving Repr, DecidableEq

/-- The syscall/collaborator oracle the handlers run against.  `myersEditCount`
and `renderUnified` model the external `gotextdiff` collaborator: only the
emptiness of `myers.ComputeEdits` is inspected by the repository's code. -/
structure Env where
  home : Option String
  cwd : Except FsErr String
  lstat : String → Except FsErr FileInfo
  stat : String → Except FsErr FileInfo
  evalSymlinks : String → Except FsErr String
  readFile : String → Except FsErr String
  myersEditCount : String → String → Nat
  renderUnified : String → String → String → String
  walkSymlink : String → Option String

/-! ## `internal/pathutil` -/

/-- Go `pathutil.ExpandHome` (the Windows `~\\` spelling is kept for
fidelity). -/
def expandHome (env : Env) (path : String) : String :=
  if ¬ strStartsWith path "~" then path
  else
    match env.home with
    | none => path
    | some home =>
      if path = "~" then home
      else if strStartsWith path "~/" || strStartsWith path "~\\" then
        joinPath home (path.drop 2)
      else path

/-- Go `filepath.Abs` on Unix: clean if already absolute, else join onto the
working directory. -/
def absPath (env : Env) (path : String) : Except FsErr String :=
  if isAbsolute path then .ok (clean path)
  else
    match env.cwd with
    | .error e => .error e
    | .ok wd => .ok (joinPath wd path)

/-- Go `pathutil.NormalizePath` (Unix: the `runtime.GOOS == "windows"` branch
is not taken). -/
def normalizePath (env : Env) (path : String) : Except FsErr String :=
  match absPath env (expandHome env path) with
  | .error e => .error e
  | .ok a => .ok (clean a)

/-! ## `internal/security` errors -/

/-- The sentinel errors of `internal/security` plus the ad-hoc `errors.New` /
propagated-OS-error returns the validators can produce. -/
inductive VErr
  | emptyPath
  | nullByte
  | pathOutsideAllowed
  | symlinkOperationDenied
  | noValidAncestor
  | parentNotDir
  | segmentNotDir (p : String)
  | osError (e : FsErr)
deriving Repr, DecidableEq

/-! ## `internal/security` validators -/

/-- Go `security.resolveAllowedDirs`: resolve each allowed directory, falling
back to the original on failure. -/
def resolveAllowedDirs (env : Env) (allowedDirs : List String) : List String :=
  allowedDirs.map (fun dir =>
    match env.evalSymlinks dir with
    | .ok r => r
    | .error _ => dir)

/-- Go `security.IsPathWithinAllowedDirectories`. -/
def isPathWithinAllowedDirectories (path : String) (allowedDirs : List String) : Bool :=
  if allowedDirs.length = 0 then false
  else
    allowedDirs.any (fun allowed =>
      clean path = clean allowed ||
      strStartsWith (clean path) (clean allowed ++ "/"))

/-- The containment gate every validator ends with:
`if !IsPathWithinAllowedDirectories(p, resolved) { return ErrPathOutsideAllowed }`. -/
def containGate (resolvedAllowed : List String) (p : String) : Except VErr String :=
  if isPathWithinAllowedDirectories p resolvedAllowed then .ok p
  else .error .pathOutsideAllowed

/-- The symlink-resolution step of Go `security.ValidatePathWithResolved`:
resolve existing paths fully (symlink or not, both Go branches call
`EvalSymlinks`); for missing paths resolve the parent and reattach the base,
or fall back to the normalized path when the parent is missing too. -/
def resolveForRead (env : Env) (normalizedPath : String) : Except VErr String :=
  match env.lstat normalizedPath with
  | .ok _info =>
    match env.evalSymlinks normalizedPath with
    | .ok r => .ok r
    | .error e => .error (.osError e)
  | .error .notExist =>
    match env.stat (dirPath normalizedPath) with
    | .ok parentInfo =>
      if ¬ parentInfo.isDir then .error .parentNotDir
      else
        match env.evalSymlinks (dirPath normalizedPath) with
        | .ok resolvedParent =>
          .ok (joinPath resolvedParent (basePath normalizedPath))
        | .error e => .error (.osError e)
    | .error _ => .ok normalizedPath
  | .error .other => .ok normalizedPath

/-- Go `security.ValidatePathWithResolved`. -/
def validatePathWithResolved (env : Env) (path : String)
    (resolvedAllowed : List String) : Except VErr String :=
  if path = "" then .error .emptyPath
  else if containsNul path then .error .nullByte
  else
    match normalizePath env path with
    | .error e => .error (.osError e)
    | .ok normalizedPath =>
      match resolveForRead env normalizedPath with
      | .error e => .error e
      | .ok resolvedPath => containGate resolvedAllowed resolvedPath

/-- Go `security.ValidatePath`. -/
def validatePath (env : Env) (path : String) (allowedDirs : List String) :
    Except VErr String :=
  validatePathWithResolved env path (resolveAllowedDirs env allowedDirs)

/-- The ancestor walk shared by the creation validators: from `parentDir`
upward while it is neither `"/"` nor `"."`, stop at the first directory the
OS can stat, resolve it and reattach the suffix.  `fuel` bounds the walk (the
Go loop terminates because `filepath.Dir` shortens its argument). -/
def ancestorLoop (env : Env) (np : String) : Nat → String → Except VErr (Option String)
  | 0, _ => .ok none
  | fuel + 1, parentDir =>
    if parentDir = "/" || parentDir = "." then .ok none
    else
      match env.stat parentDir with
      | .ok _ =>
        match env.evalSymlinks parentDir with
        | .error e => .error (.osError e)
        | .ok resolvedParent =>
          match relPath parentDir np with
          | .error _ => .error (.osError .other)
          | .ok rel => .ok (some (joinPath resolvedParent rel))
      | .error _ => ancestorLoop env np fuel (dirPath parentDir)

/-- Go `security.ValidatePathForCreationWithResolved`. -/
def validatePathForCreationWithResolved (env : Env) (path : String)
    (resolvedAllowed : List String) : Except VErr String :=
  if path = "" then .error .emptyPath
  else if containsNul path then .error .nullByte
  else
    match normalizePath env path with
    | .error e => .error (.osError e)
    | .ok normalizedPath =>
      match ancestorLoop env normalizedPath (normalizedPath.length + 1)
          (dirPath normalizedPath) with
      | .error e => .error e
      | .ok found =>
        containGate resolvedAllowed (found.getD normalizedPath)

/-- Go `security.ValidatePathForCreation`. -/
def validatePathForCreation (env : Env) (path : String)
    (allowedDirs : List String) : Except VErr String :=
  validatePathForCreationWithResolved env path (resolveAllowedDirs env allowedDirs)

/-- Go `security.ValidateFinalPath`. -/
def validateFinalPath (env : Env) (path : String) (allowedDirs : List String) :
    Except VErr String :=
  if path = "" then .error .emptyPath
  else if containsNul path then .error .nullByte
  else
    match normalizePath env path with
    | .error e => .error (.osError e)
    | .ok normalizedPath =>
      match env.lstat normalizedPath with
      | .error e => .error (.osError e)
      | .ok info =>
        if info.isSymlink then .error .symlinkOperationDenied
        else
          match env.evalSymlinks normalizedPath with
          | .error e => .error (.osError e)
          | .ok resolvedPath =>
            containGate (resolveAllowedDirs env allowedDirs) resolvedPath

/-- Go `security.ValidateFinalPathForCreation`. -/
def validateFinalPathForCreation (env : Env) (path : String)
    (allowedDirs : List String) : Except VErr String :=
  if path = "" then .error .emptyPath
  else if containsNul path then .error .nullByte
  else
    match normalizePath env path with
    | .error e => .error (.osError e)
    | .ok normalizedPath =>
      match env.lstat normalizedPath with
      | .ok info =>
        if info.isSymlink then .error .symlinkOperationDenied
        else
          match env.evalSymlinks normalizedPath with
          | .error e => .error (.osError e)
          | .ok resolvedPath =>
            containGate (resolveAllowedDirs env allowedDirs) resolvedPath
      | .error .other => .error (.osError .other)
      | .error .notExist =>
        match ancestorLoop env normalizedPath (normalizedPath.length + 1)
            (dirPath normalizedPath) with
        | .error e => .error e
        | .ok none => .error .noValidAncestor
        | .ok (some resolvedPath) =>
          containGate (resolveAllowedDirs env allowedDirs) resolvedPath

/-- The longest allowed root that is a lexical ancestor of `normalized`
(the shared inline loop of `ValidateNoSymlinksInPath` and `safeMkdirAll`). -/
def longestRoot (env : Env) (normalized : String) (allowedDirs : List String) : String :=
  allowedDirs.foldl
    (fun acc dir =>
      match normalizePath env dir with
      | .error _ => acc
      | .ok nd =>
        if (normalized = nd || strStartsWith normalized (nd ++ "/")) &&
            acc.length < nd.length then nd
        else acc) ""

/-- The per-segment symlink walk of Go `security.ValidateNoSymlinksInPath`:
stop (accept) at the first missing segment, reject the first symlink. -/
def noSymlinkWalk (env : Env) : List String → String → Except VErr Unit
  | [], _ => .ok ()
  | part :: rest, current =>
    if part = "" then noSymlinkWalk env rest current
    else
      let next := joinPath current part
      match env.lstat next with
      | .error .notExist => .ok ()
      | .error .other => .error (.osError .other)
      | .ok info =>
        if info.isSymlink then .error .symlinkOperationDenied
        else noSymlinkWalk env rest next

/-- Go `security.ValidateNoSymlinksInPath`. -/
def validateNoSymlinksInPath (env : Env) (path : String)
    (allowedDirs : List String) : Except VErr Unit :=
  match normalizePath env path with
  | .error e => .error (.osError e)
  | .ok normalized =>
    let allowedRoot := longestRoot env normalized allowedDirs
    if allowedRoot = "" then .error .pathOutsideAllowed
    else
      match relPath allowedRoot normalized with
      | .error _ => .error (.osError .other)
      | .ok relative =>
        if relative = "." then .ok ()
        else noSymlinkWalk env (strSplitOn '/' relative) allowedRoot

/-! ## `internal/tools`: edit helpers (`part_002`) -/

/-- Go `tools.normalizeWhitespace`: trim every line, rejoin with `\n`. -/
def normalizeWhitespace (s : String) : String :=
  String.intercalate "\n" ((strSplitOn '\n' s).map trimSpace)

/-- Go `tools.getIndent`: the leading run of spaces and tabs. -/
def getIndent (s : String) : String :=
  String.mk (s.data.takeWhile (fun c => c = ' ' || c = '\t'))

/-- Offsets of all occurrences of `old` in `content`, as scanned by
`findMatch`'s `strings.HasPrefix(content[idx:], oldText)` loop. -/
def occOffsets (content old : String) : List Nat :=
  (List.range (content.data.length + 1 - old.data.length)).filter
    (fun i => old.data.isPrefixOf (content.data.drop i))

/-- Go `tools.matchInfo`. -/
structure MatchInfo where
  exactMatches : List Nat
  normalizedMatches : List Nat
  oldTextNormalized : String
deriving Repr, DecidableEq

/-- The `fmt.Errorf` failures of Go `tools.findMatch`. -/
inductive MatchErr
  | emptyOldText
  | notFound
  | multipleMatches
deriving Repr, DecidableEq

/-- Go `tools.findMatch`. -/
def findMatch (content oldText : String) (requireUnique : Bool) :
    Except MatchErr MatchInfo :=
  if oldText = "" then .error .emptyOldText
  else
    let otn := normalizeWhitespace oldText
    let ms := occOffsets content oldText
    let nms := if otn ≠ "" then occOffsets (normalizeWhitespace content) otn else []
    if ms.length = 0 && nms.length = 0 then .error .notFound
    else if requireUnique &&
        1 < (if ms.length = 0 then nms.length else ms.length) then
      .error .multipleMatches
    else .ok ⟨ms, nms, otn⟩

/-- The per-window line comparison of `replaceWithIndentPreservation`:
all `oldText` lines match the content lines at `i` after trimming. -/
def linesMatchAt (lines oldLines : List String) (i : Nat) : Bool :=
  (List.range oldLines.length).all
    (fun j => trimSpace (lines.getD (i + j) "") = trimSpace (oldLines.getD j ""))

/-- The replacement block `replaceWithIndentPreservation` builds at a match:
first replacement line gets `indent` plus its trimmed body, later lines get
`indent` plus their own leading whitespace plus their trimmed body. -/
def buildReplacement (lines newLines : List String) (i nOld : Nat)
    (indent : String) : String :=
  String.intercalate "\n"
    (lines.take i ++
     newLines.enum.map (fun kv =>
       if kv.1 = 0 then indent ++ trimSpace kv.2
       else indent ++ getIndent kv.2 ++ trimSpace kv.2) ++
     lines.drop (i + nOld))

/-- The scanning loop of Go `tools.replaceWithIndentPreservation`; `steps`
counts the remaining window positions (`i <= len(lines)-len(oldLines)`). -/
def rwipLoop (content : String) (lines oldLines newLines : List String)
    (occurrence : Int) : Nat → Nat → Nat → String
  | 0, _, _ => content
  | steps + 1, i, matchIndex =>
    if linesMatchAt lines oldLines i then
      if ((matchIndex + 1 : Nat) : Int) ≠ occurrence then
        rwipLoop content lines oldLines newLines occurrence steps (i + 1) (matchIndex + 1)
      else
        buildReplacement lines newLines i oldLines.length (getIndent (lines.getD i ""))
    else rwipLoop content lines oldLines newLines occurrence steps (i + 1) matchIndex

/-- Go `tools.replaceWithIndentPreservation`. -/
def replaceWithIndentPreservation (content old new : String) (occurrence : Int) :
    String :=
  let lines := strSplitOn '\n' content
  let oldLines := strSplitOn '\n' old
  let newLines := strSplitOn '\n' new
  rwipLoop content lines oldLines newLines occurrence
    (lines.length + 1 - oldLines.length) 0 0

/-- Go `tools.applyMatch`. -/
def applyMatch (content old new : String) (info : MatchInfo) (occurrence : Int) :
    String :=
  if info.exactMatches.length ≠ 0 then
    let index := info.exactMatches.getD (occurrence - 1).toNat 0
    String.mk (content.data.take index) ++ new ++
      String.mk (content.data.drop (index + old.data.length))
  else replaceWithIndentPreservation content old new occurrence

/-! ## `internal/tools`: handler return sites -/

/-- One constructor per distinct handler error return site used below. -/
inductive ToolErr
  | pathRequired
  | validation (e : VErr)
  | srcValidation (e : VErr)
  | dstValidation (e : VErr)
  | readFailed (e : FsErr)
  | statFailed (e : FsErr)
  | srcStatFailed (e : FsErr)
  | isADirectory
  | notADirectoryTool
  | dstExists
  | emptyOldText (i : Nat)
  | occurrenceInvalid (i : Nat)
  | matchFailed (i : Nat) (e : MatchErr)
  | occurrenceOutOfRange (i : Nat) (occ : Int)
  | writeFailed (e : VErr)
  | mkdirFailed (e : VErr)
  | deleteRootDenied
  | containsAllowedRoot
  | symlinkEntryFound (p : String)
deriving Repr, DecidableEq

/-- A file mutation performed through the temp-and-rename path: afterwards
`path` holds `content` with permission bits `perm`. -/
structure WriteEffect where
  path : String
  content : String
  perm : Nat
deriving Repr, DecidableEq

/-- Go `tools.generateUnifiedDiff`: `myers.ComputeEdits` and
`gotextdiff.ToUnified` are the external diff collaborator (oracles). -/
def generateUnifiedDiff (env : Env) (path old new : String) : String :=
  if env.myersEditCount old new = 0 then "No changes"
  else env.renderUnified path old new

/-- Go `tools.atomicWriteFile` (`part_006`): re-validate the destination with
`ValidateFinalPathForCreation`, then temp-write/fsync/rename (raw I/O of the
temp file modelled as succeeding; the rename leaves `path` holding `data`
with permission `perm`). -/
def atomicWriteFile (env : Env) (path data : String) (perm : Nat)
    (allowedDirs : List String) : Except VErr WriteEffect :=
  match validateFinalPathForCreation env path allowedDirs with
  | .error e => .error e
  | .ok _ => .ok ⟨path, data, perm⟩

/-! ## `internal/tools`: edit_file handler (`part_002`) -/

/-- Go `filesystem.EditOperation`. -/
structure EditOperation where
  oldText : String
  newText : String
  requireUnique : Option Bool
  occurrence : Option Int
deriving Repr, DecidableEq

/-- The sequential edit loop of `HandleEditFile` (`for i, edit := range edits`,
`i` 1-based in the error messages). -/
def applyEdits (content : String) : List EditOperation → Nat → Except ToolErr String
  | [], _ => .ok content
  | edit :: rest, i =>
    if edit.oldText = "" then .error (.emptyOldText i)
    else
      let requireUnique := edit.requireUnique.getD true
      if edit.occurrence.isSome ∧ edit.occurrence.getD 1 < 1 then
        .error (.occurrenceInvalid i)
      else
        match findMatch content edit.oldText requireUnique with
        | .error me => .error (.matchFailed i me)
        | .ok mi =>
          let occurrence : Int := edit.occurrence.getD 1
          if (mi.exactMatches.length : Int) < occurrence then
            .error (.occurrenceOutOfRange i occurrence)
          else
            applyEdits (applyMatch content edit.oldText edit.newText mi occurrence)
              rest (i + 1)

/-- Result of a successful `edit_file` call: the tool text, and the write
performed (none on dry run). -/
structure EditOutcome where
  text : String
  written : Option WriteEffect
deriving Repr, DecidableEq

/-- Go `tools.HandleEditFile` (after argument decoding). -/
def handleEditFile (env : Env) (allowedDirs : List String) (path : String)
    (edits : List EditOperation) (dryRun : Bool) : Except ToolErr EditOutcome :=
  if path = "" then .error .pathRequired
  else
    match validateFinalPath env path allowedDirs with
    | .error e => .error (.validation e)
    | .ok resolvedPath =>
      match env.readFile resolvedPath with
      | .error e => .error (.readFailed e)
      | .ok originalContent =>
        match applyEdits originalContent edits 1 with
        | .error e => .error e
        | .ok newContent =>
          let diff := generateUnifiedDiff env resolvedPath originalContent newContent
          if dryRun then
            .ok ⟨"Dry run - changes not applied:\n\n" ++ diff, none⟩
          else
            match env.stat resolvedPath with
            | .error e => .error (.statFailed e)
            | .ok info =>
              match atomicWriteFile env resolvedPath newContent info.perm allowedDirs with
              | .error e => .error (.writeFailed e)
              | .ok eff =>
                .ok ⟨"Successfully edited " ++ resolvedPath ++ "\n\n" ++ diff, some eff⟩

/-! ## `internal/tools`: safe mkdir chain (`part_006`) -/

/-- The component walk of Go `tools.safeMkdirAll`.  The trace records each
`os.Mkdir(next, perm)` call as the pair `(current, next)`: `current` is the
cumulative parent at the moment of the call. -/
def mkdirWalk (env : Env) (allowedDirs : List String) :
    List String → String → List (String × String) →
    Except VErr Unit × List (String × String)
  | [], _, trace => (.ok (), trace)
  | part :: rest, current, trace =>
    if part = "" then mkdirWalk env allowedDirs rest current trace
    else
      let next := joinPath current part
      match env.lstat next with
      | .ok info =>
        if info.isSymlink then (.error .symlinkOperationDenied, trace)
        else if ¬ info.isDir then (.error (.segmentNotDir next), trace)
        else mkdirWalk env allowedDirs rest next trace
      | .error .notExist =>
        match validatePathForCreation env next allowedDirs with
        | .error e => (.error e, trace)
        | .ok _ => mkdirWalk env allowedDirs rest next (trace ++ [(current, next)])
      | .error .other => (.error (.osError .other), trace)

/-- Go `tools.safeMkdirAll` (`part_006`), returning its result together with
the trace of `os.Mkdir` calls it performs. -/
def safeMkdirAll (env : Env) (path : String) (allowedDirs : List String) :
    Except VErr Unit × List (String × String) :=
  match normalizePath env path with
  | .error e => (.error (.osError e), [])
  | .ok normalized =>
    match validatePathForCreation env normalized allowedDirs with
    | .error e => (.error e, [])
    | .ok _ =>
      match validateNoSymlinksInPath env normalized allowedDirs with
      | .error e => (.error e, [])
      | .ok _ =>
        let allowedRoot := longestRoot env normalized allowedDirs
        if allowedRoot = "" then (.error .pathOutsideAllowed, [])
        else
          match relPath allowedRoot normalized with
          | .error _ => (.error (.osError .other), [])
          | .ok relative =>
            if relative = "." then (.ok (), [])
            else mkdirWalk env allowedDirs (strSplitOn '/' relative) allowedRoot []

/-! ## `internal/tools`: directory / copy / move / delete handlers -/

/-- Go `tools.HandleCreateDirectory` (`internal/tools/directory.go`): V-Create
then plain `os.MkdirAll`.  The second component records the `os.MkdirAll`
invocation (path it is applied to), empty when validation fails. -/
def handleCreateDirectory (env : Env) (allowedDirs : List String) (path : String) :
    Except ToolErr String × List String :=
  match validatePathForCreation env path allowedDirs with
  | .error e => (.error (.validation e), [])
  | .ok resolvedPath =>
    (.ok ("Successfully created directory " ++ resolvedPath), [resolvedPath])

/-- Go `tools.ensureNoSymlink` (`part_006`). -/
def ensureNoSymlink (env : Env) (path : String) : Except VErr Unit :=
  match env.lstat path with
  | .error .notExist => .ok ()
  | .error .other => .error (.osError .other)
  | .ok info =>
    if info.isSymlink then .error .symlinkOperationDenied else .ok ()

/-- Go `tools.HandleCopyFile` (`internal/tools/copy.go` revision).  The second
component records the streaming copy performed, as `(source, destination)`. -/
def handleCopyFile (env : Env) (allowedDirs : List String)
    (source destination : String) (overwrite : Bool) :
    Except ToolErr String × Option (String × String) :=
  match validatePath env source allowedDirs with
  | .error e => (.error (.srcValidation e), none)
  | .ok resolvedSrc =>
    match env.stat resolvedSrc with
    | .error e => (.error (.srcStatFailed e), none)
    | .ok srcInfo =>
      if srcInfo.isDir then (.error .isADirectory, none)
      else
        match validatePathForCreation env destination allowedDirs with
        | .error e => (.error (.dstValidation e), none)
        | .ok resolvedDst =>
          if (env.stat resolvedDst).isOk && ¬ overwrite then
            (.error .dstExists, none)
          else
            (.ok ("Successfully copied " ++ resolvedSrc ++ " to " ++ resolvedDst),
             some (resolvedSrc, resolvedDst))

/-- Go `tools.HandleCopyFile`, revised (`part_003`): adds
`ValidateNoSymlinksInPath` on the raw destination and `ensureNoSymlink` on the
resolved destination when overwriting. -/
def handleCopyFileRevised (env : Env) (allowedDirs : List String)
    (source destination : String) (overwrite : Bool) :
    Except ToolErr String × Option (String × String) :=
  match validatePath env source allowedDirs with
  | .error e => (.error (.srcValidation e), none)
  | .ok resolvedSrc =>
    match env.stat resolvedSrc with
    | .error e => (.error (.srcStatFailed e), none)
    | .ok srcInfo =>
      if srcInfo.isDir then (.error .isADirectory, none)
      else
        match validatePathForCreation env destination allowedDirs with
        | .error e => (.error (.dstValidation e), none)
        | .ok resolvedDst =>
          match validateNoSymlinksInPath env destination allowedDirs with
          | .error e => (.error (.dstValidation e), none)
          | .ok _ =>
            if (env.lstat resolvedDst).isOk then
              if ¬ overwrite then (.error .dstExists, none)
              else
                match ensureNoSymlink env resolvedDst with
                | .error e => (.error (.dstValidation e), none)
                | .ok _ =>
                  (.ok ("Successfully copied " ++ resolvedSrc ++ " to " ++ resolvedDst),
                   some (resolvedSrc, resolvedDst))
            else
              (.ok ("Successfully copied " ++ resolvedSrc ++ " to " ++ resolvedDst),
               some (resolvedSrc, resolvedDst))

/-- Go `tools.HandleMoveFile` (`internal/tools/move.go`).  The second component
records the `os.Rename` performed, as `(source, destination)`. -/
def handleMoveFile (env : Env) (allowedDirs : List String)
    (source destination : String) :
    Except ToolErr String × Option (String × String) :=
  match validatePath env source allowedDirs with
  | .error e => (.error (.srcValidation e), none)
  | .ok resolvedSrc =>
    match env.stat resolvedSrc with
    | .error e => (.error (.srcStatFailed e), none)
    | .ok _ =>
      match validatePathForCreation env destination allowedDirs with
      | .error e => (.error (.dstValidation e), none)
      | .ok resolvedDst =>
        if (env.stat resolvedDst).isOk then (.error .dstExists, none)
        else
          (.ok ("Successfully moved " ++ resolvedSrc ++ " to " ++ resolvedDst),
           some (resolvedSrc, resolvedDst))

/-- Go `tools.HandleDeleteFile` (`internal/tools/delete.go`).  The second
component records the `os.Remove` performed. -/
def handleDeleteFile (env : Env) (allowedDirs : List String) (path : String) :
    Except ToolErr String × Option String :=
  match validateFinalPath env path allowedDirs with
  | .error e => (.error (.validation e), none)
  | .ok resolvedPath =>
    match env.stat resolvedPath with
    | .error e => (.error (.statFailed e), none)
    | .ok info =>
      if info.isDir then (.error .isADirectory, none)
      else (.ok ("Successfully deleted " ++ resolvedPath), some resolvedPath)

/-- Go `tools.HandleDeleteDirectory` (`internal/tools/delete.go`).
`env.walkSymlink` models `rejectSymlinkEntries`'s `filepath.WalkDir`: the
first symlink entry under the directory, if any.  The second component
records the `os.Remove`/`os.RemoveAll` performed. -/
def handleDeleteDirectory (env : Env) (allowedDirs : List String) (path : String)
    (recursive : Bool) : Except ToolErr String × Option String :=
  match validateFinalPath env path allowedDirs with
  | .error e => (.error (.validation e), none)
  | .ok resolvedPath =>
    match env.stat resolvedPath with
    | .error e => (.error (.statFailed e), none)
    | .ok info =>
      if ¬ info.isDir then (.error .notADirectoryTool, none)
      else
        let resolvedRoots := allowedDirs.map (fun allowed =>
          match env.evalSymlinks allowed with
          | .ok r => r
          | .error _ => allowed)
        if resolvedRoots.any (fun r => clean r = clean resolvedPath) then
          (.error .deleteRootDenied, none)
        else if recursive then
          match env.walkSymlink resolvedPath with
          | some p => (.error (.symlinkEntryFound p), none)
          | none =>
            if resolvedRoots.any
                (fun r => isPathWithinAllowedDirectories r [resolvedPath]) then
              (.error .containsAllowedRoot, none)
            else (.ok ("Successfully deleted " ++ resolvedPath), some resolvedPath)
        else (.ok ("Successfully deleted " ++ resolvedPath), some resolvedPath)

/-! ## `internal/stream` (`part_011`) -/

/-- `TailChunkSize`: chunk size for tail operations (1 KiB). -/
def tailChunkSize : Nat := 1024

/-- The continuation of the join loop the stream helpers use
(`if i > 0 { write '\n' }; write line`): newline before every element. -/
def joinCont : List String → String
  | [] => ""
  | p :: ps => "\n" ++ p ++ joinCont ps

/-- The Go join loop over collected lines: elements separated by `'\n'`,
no trailing newline. -/
def joinGo : List String → String
  | [] => ""
  | p :: ps => p ++ joinCont ps

/-- Split a character list at every newline; always nonempty, segments carry
no `'\n'`.  This is the segment structure `TailFile`'s backward scan and the
claims' "split on `\n`" both refer to. -/
def splitNL (l : List Char) : List (List Char) :=
  splitOnChar '\n' l

/-- One iteration body of `TailFile`'s backward chunk scan, split out for the
proofs: from `data = chunk ++ leftover`, the Go index loop collects exactly
the nonempty segments after `data`'s first newline (in order) and keeps the
part before the first newline as the new leftover. -/
def chunkScan (data : List Char) : List (List Char) × List Char :=
  (((splitNL data).tail).filter (fun s => s ≠ []), (splitNL data).headD [])

/-- The `for len(lines) <= n && offset > 0` loop of Go `stream.TailFile`.
`fuel ≥ offset` bounds the iteration count (each pass strictly decreases
`offset`). -/
def tailLoop (content : List Char) (n : Nat) :
    Nat → Nat → List Char → List (List Char) → List Char × List (List Char)
  | 0, _, leftover, lines => (leftover, lines)
  | fuel + 1, offset, leftover, lines =>
    if lines.length ≤ n ∧ 0 < offset then
      let readSize := min tailChunkSize offset
      let offset2 := offset - readSize
      let chunk := (content.drop offset2).take readSize
      let scanned := chunkScan (chunk ++ leftover)
      tailLoop content n fuel offset2 scanned.2 (scanned.1 ++ lines)
    else (leftover, lines)

/-- The post-loop steps of Go `stream.TailFile`: prepend the remaining
leftover (the file's first line) when it is nonempty and fewer than `n` lines
were collected, then keep only the last `n` lines. -/
def tailFinish (n : Nat) (leftover : List Char) (lines : List (List Char)) :
    List (List Char) :=
  let lines1 :=
    if leftover ≠ [] ∧ lines.length < n then leftover :: lines else lines
  if n < lines1.length then lines1.drop (lines1.length - n) else lines1

/-- Go `stream.TailFile` (`part_011`), as a function of the file's byte
content. -/
def tailFile (content : String) (n : Int) : String :=
  if n ≤ 0 then ""
  else
    let cs := content.data
    if cs.length = 0 then ""
    else
      let result := tailLoop cs n.toNat cs.length cs.length [] []
      joinGo ((tailFinish n.toNat result.1 result.2).map String.mk)

/-- The token sequence of `bufio.Scanner` with `ScanLines`: every
newline-terminated line, plus a final unterminated line when the content does
not end in `'\n'`; an empty file yields no tokens. -/
def scanLines (content : String) : List String :=
  if content = "" then []
  else
    let parts := strSplitOn '\n' content
    if strEndsWith content "\n" then parts.dropLast else parts

/-- Go `stream.lineNumberWidth`: decimal digit count, and 1 for non-positive
input. -/
def lineNumberWidth (maxLine : Int) : Nat :=
  if maxLine ≤ 0 then 1 else (toString maxLine.toNat).length

/-- `fmt.Sprintf("%%%dd | %%s", width)` applied to a line number and a line:
the number right-aligned in `width` columns, then `" | "`, then the text. -/
def numberLine (width : Nat) (n : Nat) (text : String) : String :=
  String.mk (List.replicate (width - (toString n).length) ' ') ++ toString n ++
    " | " ++ text

/-- The scanner loop of Go `stream.ReadFileWithLineNumbers`: `lineNum`
counts scanned lines, lines before `startLine` are skipped, the loop breaks
past `endLine` when `endLine > 0`. -/
def rflnLoop (width : Nat) (startLine endLine : Int) :
    List String → Int → String → Bool → String
  | [], _, acc, _ => acc
  | l :: rest, lineNum, acc, first =>
    let ln := lineNum + 1
    if ln < startLine then rflnLoop width startLine endLine rest ln acc first
    else if 0 < endLine ∧ endLine < ln then acc
    else
      rflnLoop width startLine endLine rest ln
        (acc ++ (if first then "" else "\n") ++ numberLine width ln.toNat l) false

/-- Go `stream.ReadFileWithLineNumbers` (`part_011` revision), as a function
of the file's content: width from `endLine` when positive, else from a first
counting pass. -/
def readFileWithLineNumbers (content : String) (startLine endLine : Int) : String :=
  let startLine := if startLine ≤ 0 then 1 else startLine
  let maxLineNum : Int :=
    if 0 < endLine then endLine else ((scanLines content).length : Int)
  let width := lineNumberWidth maxLineNum
  rflnLoop width startLine endLine (scanLines content) 0 "" true

/-! ## Concrete test environments (used by witnesses and counterexamples) -/

/-- Build an `Env` from the four filesystem oracles; the diff collaborator
reports no edits exactly on identical inputs. -/
def mkTestEnv (lst st : String → Except FsErr FileInfo)
    (ev : String → Except FsErr String)
    (rd : String → Except FsErr String) : Env :=
  { home := none, cwd := .ok "/",
    lstat := lst, stat := st, evalSymlinks := ev, readFile := rd,
    myersEditCount := fun a b => if a = b then 0 else 1,
    renderUnified := fun _ _ _ => "<unified diff>",
    walkSymlink := fun _ => none }

def dirInfo : FileInfo := ⟨false, true, 493⟩

def fileInfo : FileInfo := ⟨false, false, 420⟩

def symInfo : FileInfo := ⟨true, false, 511⟩

/-- Root `/box` containing the regular file `/box/f` (content `"hello"`). -/
def envBox : Env :=
  mkTestEnv
    (fun p => if p = "/box" then .ok dirInfo
      else if p = "/box/f" then .ok fileInfo
      else .error .notExist)
    (fun p => if p = "/box" then .ok dirInfo
      else if p = "/box/f" then .ok fileInfo
      else .error .notExist)
    (fun p => if p = "/box" ∨ p = "/box/f" then .ok p else .error .notExist)
    (fun p => if p = "/box/f" then .ok "hello" else .error .notExist)

/-- Root `/box` containing the symlink `/box/link` (pointing at `/secret`). -/
def envSymlinkFinal : Env :=
  mkTestEnv
    (fun p => if p = "/box" then .ok dirInfo
      else if p = "/box/link" then .ok symInfo
      else .error .notExist)
    (fun p => if p = "/box" ∨ p = "/box/link" then .ok dirInfo
      else .error .notExist)
    (fun p => if p = "/box" then .ok p
      else if p = "/box/link" then .ok "/secret"
      else .error .notExist)
    (fun _ => .error .other)

/-- The spec's scenario 4 after the swap: root `/tmp/box`, with `/tmp/box/a`
a symlink to the existing outside directory `/tmp/other`. -/
def envOutsideLink : Env :=
  mkTestEnv
    (fun p => if p = "/tmp/box" ∨ p = "/tmp/other" ∨ p = "/tmp" then .ok dirInfo
      else if p = "/tmp/box/a" then .ok symInfo
      else .error .notExist)
    (fun p => if p = "/tmp/box" ∨ p = "/tmp/box/a" ∨ p = "/tmp/other" ∨ p = "/tmp" then
        .ok dirInfo
      else .error .notExist)
    (fun p => if p = "/tmp/box/a" then .ok "/tmp/other"
      else if p = "/tmp/box" ∨ p = "/tmp/other" ∨ p = "/tmp" then .ok p
      else .error .notExist)
    (fun _ => .error .other)

/-- The repository test `TestHandleCreateDirectoryRejectsSymlinksInPath`'s
layout: root `/box` with directory `/box/realdir` and symlink `/box/linkdir`
pointing at it. -/
def envInsideLink : Env :=
  mkTestEnv
    (fun p => if p = "/box" ∨ p = "/box/realdir" then .ok dirInfo
      else if p = "/box/linkdir" then .ok symInfo
      else .error .notExist)
    (fun p => if p = "/box" ∨ p = "/box/realdir" ∨ p = "/box/linkdir" then .ok dirInfo
      else .error .notExist)
    (fun p => if p = "/box/linkdir" then .ok "/box/realdir"
      else if p = "/box" ∨ p = "/box/realdir" then .ok p
      else .error .notExist)
    (fun _ => .error .other)

/-- An allowed root `/r` that is itself a symlink to the directory `/real`
(as `/tmp` is on macOS). -/
def envSymRoot : Env :=
  mkTestEnv
    (fun p => if p = "/r" then .ok symInfo
      else if p = "/real" then .ok dirInfo
      else .error .notExist)
    (fun p => if p = "/r" ∨ p = "/real" then .ok dirInfo else .error .notExist)
    (fun p => if p = "/r" then .ok "/real"
      else if p = "/real" then .ok p
      else .error .notExist)
    (fun _ => .error .other)

/-- Root `/box` with source file `/box/s`, target file `/box/t`, and the
destination `/box/ln` an existing symlink to `/box/t`. -/
def envSymDest : Env :=
  mkTestEnv
    (fun p => if p = "/box" then .ok dirInfo
      else if p = "/box/s" ∨ p = "/box/t" then .ok fileInfo
      else if p = "/box/ln" then .ok symInfo
      else .error .notExist)
    (fun p => if p = "/box" then .ok dirInfo
      else if p = "/box/s" ∨ p = "/box/t" ∨ p = "/box/ln" then .ok fileInfo
      else .error .notExist)
    (fun p => if p = "/box/ln" then .ok "/box/t"
      else if p = "/box" ∨ p = "/box/s" ∨ p = "/box/t" then .ok p
      else .error .notExist)
    (fun _ => .error .other)

/-- Root `/box` with `/box/f` holding an indented block that matches an edit's
`oldText` only after whitespace normalization. -/
def envEditFallback : Env :=
  mkTestEnv
    (fun p => if p = "/box" then .ok dirInfo
      else if p = "/box/f" then .ok fileInfo
      else .error .notExist)
    (fun p => if p = "/box" then .ok dirInfo
      else if p = "/box/f" then .ok fileInfo
      else .error .notExist)
    (fun p => if p = "/box" ∨ p = "/box/f" then .ok p else .error .notExist)
    (fun p => if p = "/box/f" then .ok "  if x:\n    y" else .error .notExist)

/-! ## Containment helpers -/

/-- Every validator's success passes through the containment gate. -/
theorem containGate_ok {roots : List String} {p c : String}
    (h : containGate roots p = .ok c) :
    c = p ∧ isPathWithinAllowedDirectories p roots = true := by
  unfold containGate at h
  split at h
  · cases h
    exact ⟨rfl, by assumption⟩
  · cases h

/-- Unpack the containment predicate into the claim's form: some root equals
the path or is a separator-bounded ancestor of it (after `filepath.Clean`). -/
theorem within_exists {p : String} {roots : List String}
    (h : isPathWithinAllowedDirectories p roots = true) :
    ∃ r ∈ roots, clean p = clean r ∨ strStartsWith (clean p) (clean r ++ "/") = true := by
  unfold isPathWithinAllowedDirectories at h
  split at h
  · cases h
  · rcases List.any_eq_true.mp h with ⟨r, hr, hcond⟩
    refine ⟨r, hr, ?_⟩
    rcases Bool.or_eq_true_iff.mp hcond with h1 | h2
    · exact Or.inl (by simpa using h1)
    · exact Or.inr h2

/-- V-Read's success value always satisfies the containment predicate against
the resolved roots it was given. -/
theorem validatePathWithResolved_ok {env : Env} {path : String}
    {roots : List String} {c : String}
    (h : validatePathWithResolved env path roots = .ok c) :
    isPathWithinAllowedDirectories c roots = true := by
  unfold validatePathWithResolved at h
  repeat' split at h
  all_goals try cases h
  all_goals obtain ⟨rfl, hw⟩ := containGate_ok h
  all_goals exact hw

/-- V-Create's success value always satisfies the containment predicate
against the resolved roots it was given. -/
theorem validatePathForCreationWithResolved_ok {env : Env} {path : String}
    {roots : List String} {c : String}
    (h : validatePathForCreationWithResolved env path roots = .ok c) :
    isPathWithinAllowedDirectories c roots = true := by
  unfold validatePathForCreationWithResolved at h
  repeat' split at h
  all_goals try cases h
  all_goals obtain ⟨rfl, hw⟩ := containGate_ok h
  all_goals exact hw

/-- V-Final-Read's success value always satisfies the containment predicate
against the resolved allowed directories. -/
theorem validateFinalPath_ok {env : Env} {path : String}
    {dirs : List String} {c : String}
    (h : validateFinalPath env path dirs = .ok c) :
    isPathWithinAllowedDirectories c (resolveAllowedDirs env dirs) = true := by
  unfold validateFinalPath at h
  repeat' split at h
  all_goals try cases h
  all_goals obtain ⟨rfl, hw⟩ := containGate_ok h
  all_goals exact hw

/-- V-Final-Create's success value always satisfies the containment predicate
against the resolved allowed directories. -/
theorem validateFinalPathForCreation_ok {env : Env} {path : String}
    {dirs : List String} {c : String}
    (h : validateFinalPathForCreation env path dirs = .ok c) :
    isPathWithinAllowedDirectories c (resolveAllowedDirs env dirs) = true := by
  unfold validateFinalPathForCreation at h
  repeat' split at h
  all_goals try cases h
  all_goals obtain ⟨rfl, hw⟩ := containGate_ok h
  all_goals exact hw

/-! ## Claim C1 -/

/-- C1: for every caller-supplied path and allowed-roots list, if any of the
four validators (`ValidatePath`, `ValidatePathForCreation`,
`ValidateFinalPath`, `ValidateFinalPathForCreation`) returns a canonical `c`,
then some resolved root `r` satisfies `clean c = clean r` or `clean c` begins
with `clean r` followed by a single separator; a bare string-prefix match
without the separator boundary (`/srv/allow` vs `/srv/allowed`) is never
accepted. -/
theorem c1_validators_return_contained_canonicals :
    (∀ (env : Env) (path : String) (dirs : List String) (c : String),
      validatePath env path dirs = .ok c →
      ∃ r ∈ resolveAllowedDirs env dirs,
        clean c = clean r ∨ strStartsWith (clean c) (clean r ++ "/") = true) ∧
    (∀ (env : Env) (path : String) (dirs : List String) (c : String),
      validatePathForCreation env path dirs = .ok c →
      ∃ r ∈ resolveAllowedDirs env dirs,
        clean c = clean r ∨ strStartsWith (clean c) (clean r ++ "/") = true) ∧
    (∀ (env : Env) (path : String) (dirs : List String) (c : String),
      validateFinalPath env path dirs = .ok c →
      ∃ r ∈ resolveAllowedDirs env dirs,
        clean c = clean r ∨ strStartsWith (clean c) (clean r ++ "/") = true) ∧
    (∀ (env : Env) (path : String) (dirs : List String) (c : String),
      validateFinalPathForCreation env path dirs = .ok c →
      ∃ r ∈ resolveAllowedDirs env dirs,
        clean c = clean r ∨ strStartsWith (clean c) (clean r ++ "/") = true) ∧
    isPathWithinAllowedDirectories "/srv/allowed" ["/srv/allow"] = false := by
  refine ⟨?_, ?_, ?_, ?_, by decide⟩
  · intro env path dirs c h
    exact within_exists (validatePathWithResolved_ok h)
  · intro env path dirs c h
    exact within_exists (validatePathForCreationWithResolved_ok h)
  · intro env path dirs c h
    exact within_exists (validateFinalPath_ok h)
  · intro env path dirs c h
    exact within_exists (validateFinalPathForCreation_ok h)

/-- C1 witness: `ValidatePath` succeeds on `/box/f` under root `/box`, and the
containment predicate indeed holds for the returned canonical. -/
theorem c1_witness :
    validatePath envBox "/box/f" ["/box"] = .ok "/box/f" ∧
    ∃ r ∈ resolveAllowedDirs envBox ["/box"],
      clean "/box/f" = clean r ∨
      strStartsWith (clean "/box/f") (clean r ++ "/") = true :=
  ⟨by decide,
   c1_validators_return_contained_canonicals.1 envBox "/box/f" ["/box"] "/box/f"
     (by decide)⟩

/-! ## Claim C2 -/

/-- C2: whenever the `lstat` of the normalized caller path reports a symbolic
link, both V-Final-Read (`ValidateFinalPath`) and V-Final-Create
(`ValidateFinalPathForCreation`) fail with `SymlinkOperationDenied`, and the
`edit_file`, `delete_file` and `delete_directory` handlers consequently
reject the path before performing any operation (no write, remove, or
remove-all effect). -/
theorem c2_final_validators_reject_symlink_targets :
    ∀ (env : Env) (path : String) (dirs : List String) (np : String)
      (info : FileInfo),
      path ≠ "" → containsNul path = false →
      normalizePath env path = .ok np →
      env.lstat np = .ok info → info.isSymlink = true →
      validateFinalPath env path dirs = .error .symlinkOperationDenied ∧
      validateFinalPathForCreation env path dirs = .error .symlinkOperationDenied ∧
      (∀ edits dryRun,
        handleEditFile env dirs path edits dryRun =
          .error (.validation .symlinkOperationDenied)) ∧
      handleDeleteFile env dirs path =
        (.error (.validation .symlinkOperationDenied), none) ∧
      (∀ recursive,
        handleDeleteDirectory env dirs path recursive =
          (.error (.validation .symlinkOperationDenied), none)) := by
  intro env path dirs np info hne hnul hnorm hlstat hsym
  have hfinal : validateFinalPath env path dirs = .error .symlinkOperationDenied := by
    simp [validateFinalPath, hne, hnul, hnorm, hlstat, hsym]
  have hfinalc : validateFinalPathForCreation env path dirs =
      .error .symlinkOperationDenied := by
    simp [validateFinalPathForCreation, hne, hnul, hnorm, hlstat, hsym]
  refine ⟨hfinal, hfinalc, ?_, ?_, ?_⟩
  · intro edits dryRun
    simp [handleEditFile, hne, hfinal]
  · simp [handleDeleteFile, hfinal]
  · intro recursive
    simp [handleDeleteDirectory, hfinal]

/-- C2 witness: with `/box/link` a symlink inside root `/box`, both final
validators reject it and the three handlers all fail without effects. -/
theorem c2_witness :
    (normalizePath envSymlinkFinal "/box/link" = .ok "/box/link" ∧
     envSymlinkFinal.lstat "/box/link" = .ok symInfo ∧ symInfo.isSymlink = true) ∧
    validateFinalPath envSymlinkFinal "/box/link" ["/box"] =
      .error .symlinkOperationDenied ∧
    validateFinalPathForCreation envSymlinkFinal "/box/link" ["/box"] =
      .error .symlinkOperationDenied ∧
    handleEditFile envSymlinkFinal ["/box"] "/box/link"
        [⟨"a", "b", none, none⟩] false =
      .error (.validation .symlinkOperationDenied) ∧
    handleDeleteFile envSymlinkFinal ["/box"] "/box/link" =
      (.error (.validation .symlinkOperationDenied), none) ∧
    handleDeleteDirectory envSymlinkFinal ["/box"] "/box/link" true =
      (.error (.validation .symlinkOperationDenied), none) := by
  have h := c2_final_validators_reject_symlink_targets envSymlinkFinal "/box/link"
    ["/box"] "/box/link" symInfo (by decide) (by decide) (by decide) (by decide)
    (by decide)
  exact ⟨⟨by decide, by decide, by decide⟩, h.1, h.2.1,
    h.2.2.1 [⟨"a", "b", none, none⟩] false, h.2.2.2.1, h.2.2.2.2 true⟩

/-! ## Claim C9 -/

/-- C9 (amended): with an empty allowed-roots list,
`IsPathWithinAllowedDirectories` returns `false` for every path and none of
the four validators can ever return a canonical path; the error is
`PathOutsideAllowed` whenever validation reaches the containment gate, but
earlier checks (empty path, NUL byte, lstat failures, symlink rejection)
produce their own error kinds. -/
theorem c9_empty_roots_reject_everything :
    (∀ p : String, isPathWithinAllowedDirectories p [] = false) ∧
    (∀ (env : Env) (p : String), (validatePath env p []).isOk = false) ∧
    (∀ (env : Env) (p : String), (validatePathForCreation env p []).isOk = false) ∧
    (∀ (env : Env) (p : String), (validateFinalPath env p []).isOk = false) ∧
    (∀ (env : Env) (p : String),
      (validateFinalPathForCreation env p []).isOk = false) := by
  have hw : ∀ p : String, isPathWithinAllowedDirectories p [] = false := by
    intro p; rfl
  refine ⟨hw, ?_, ?_, ?_, ?_⟩ <;> intro env p
  · cases hv : validatePath env p [] with
    | ok c =>
      have := @validatePathWithResolved_ok env p (resolveAllowedDirs env []) c hv
      rw [show resolveAllowedDirs env [] = [] from rfl, hw] at this
      cases this
    | error e => rfl
  · cases hv : validatePathForCreation env p [] with
    | ok c =>
      have := @validatePathForCreationWithResolved_ok env p
        (resolveAllowedDirs env []) c hv
      rw [show resolveAllowedDirs env [] = [] from rfl, hw] at this
      cases this
    | error e => rfl
  · cases hv : validateFinalPath env p [] with
    | ok c =>
      have := validateFinalPath_ok hv
      rw [show resolveAllowedDirs env [] = [] from rfl, hw] at this
      cases this
    | error e => rfl
  · cases hv : validateFinalPathForCreation env p [] with
    | ok c =>
      have := validateFinalPathForCreation_ok hv
      rw [show resolveAllowedDirs env [] = [] from rfl, hw] at this
      cases this
    | error e => rfl

/-- C9 counterexample: with empty roots the failure is not always
`PathOutsideAllowed` — a nonexistent path fails `ValidateFinalPath` with the
propagated lstat error, and an empty path fails with `EmptyPath`. -/
theorem c9_counterexample :
    validateFinalPath envBox "/nope" [] = .error (.osError .notExist) ∧
    validatePath envBox "" [] = .error .emptyPath ∧
    VErr.osError .notExist ≠ VErr.pathOutsideAllowed ∧
    VErr.emptyPath ≠ VErr.pathOutsideAllowed := by
  refine ⟨by decide, by decide, by decide, by decide⟩

/-! ## Claim C3 -/

/-- C3: with allowed roots `[/tmp/box]` and `/tmp/box/a` replaced by a symlink
to the existing outside directory `/tmp/other`, `create_directory` on
`/tmp/box/a/b/c` does fail with no directory created — but with
`PathOutsideAllowed`, not the claimed `SymlinkOperationDenied`: the handler
only runs V-Create (which resolves *through* the symlink) and plain
`os.MkdirAll`.  Moreover, under the layout of the repository's own test
`TestHandleCreateDirectoryRejectsSymlinksInPath` (symlink target inside the
root) the handler *succeeds* and creates the directory through the symlink,
contradicting that test. -/
theorem c3_create_directory_lacks_symlink_chain_check :
    handleCreateDirectory envOutsideLink ["/tmp/box"] "/tmp/box/a/b/c" =
      (.error (.validation .pathOutsideAllowed), []) ∧
    envOutsideLink.lstat "/tmp/box/a" = .ok symInfo ∧
    ToolErr.validation .pathOutsideAllowed ≠
      ToolErr.validation .symlinkOperationDenied ∧
    handleCreateDirectory envInsideLink ["/box"] "/box/linkdir/newsubdir" =
      (.ok "Successfully created directory /box/realdir/newsubdir",
       ["/box/realdir/newsubdir"]) ∧
    envInsideLink.lstat "/box/linkdir" = .ok symInfo := by
  exact ⟨by decide, by decide, by decide, by decide, by decide⟩

/-! ## Claim C5 -/

/-- C5 counterexample: `/box/ln` is an existing symlink (to `/box/t`) inside
root `/box`, yet `move_file` and `copy_file` reject it with the plain
"destination already exists" error, not `SymlinkOperationDenied` — they
validate the destination with V-Create, not V-Final-Create. -/
theorem c5_counterexample :
    envSymDest.lstat "/box/ln" = .ok symInfo ∧
    handleMoveFile envSymDest ["/box"] "/box/s" "/box/ln" =
      (.error .dstExists, none) ∧
    handleCopyFile envSymDest ["/box"] "/box/s" "/box/ln" false =
      (.error .dstExists, none) ∧
    (ToolErr.dstExists ≠ ToolErr.dstValidation .symlinkOperationDenied) := by
  exact ⟨by decide, by decide, by decide, by decide⟩

/-- C5 (amended): `copy_file` and `move_file` validate their destination with
V-Create (`ValidatePathForCreation`), which never inspects the final
component; a destination whose final component is an existing symlink is
still rejected before any copy or rename, but as "destination already
exists" (`os.Stat` follows the link).  Only the revised copy handler
(`part_003`) rejects symlink destinations with `SymlinkOperationDenied`,
via `ValidateNoSymlinksInPath`, before any copy. -/
theorem c5_amended_dest_uses_vcreate :
    (∀ (env : Env) (dirs : List String) (src dst rs rd : String) (i : FileInfo),
      validatePath env src dirs = .ok rs →
      env.stat rs = .ok i → i.isDir = false →
      validatePathForCreation env dst dirs = .ok rd →
      (env.stat rd).isOk = true →
      handleCopyFile env dirs src dst false = (.error .dstExists, none) ∧
      handleMoveFile env dirs src dst = (.error .dstExists, none)) ∧
    (∀ (env : Env) (dirs : List String) (src dst rs rd : String) (i : FileInfo)
       (ow : Bool),
      validatePath env src dirs = .ok rs →
      env.stat rs = .ok i → i.isDir = false →
      validatePathForCreation env dst dirs = .ok rd →
      validateNoSymlinksInPath env dst dirs = .error .symlinkOperationDenied →
      handleCopyFileRevised env dirs src dst ow =
        (.error (.dstValidation .symlinkOperationDenied), none)) := by
  constructor
  · intro env dirs src dst rs rd i hsrc hstat hdir hdst hexists
    constructor
    · simp [handleCopyFile, hsrc, hstat, hdir, hdst, hexists]
    · simp [handleMoveFile, hsrc, hstat, hdir, hdst, hexists]
  · intro env dirs src dst rs rd i ow hsrc hstat hdir hdst hnosym
    simp [handleCopyFileRevised, hsrc, hstat, hdir, hdst, hnosym]

/-- C5 witness: the amended behaviour at the concrete symlink-destination
environment. -/
theorem c5_witness :
    (handleCopyFile envSymDest ["/box"] "/box/s" "/box/ln" false =
       (.error .dstExists, none) ∧
     handleMoveFile envSymDest ["/box"] "/box/s" "/box/ln" =
       (.error .dstExists, none)) ∧
    handleCopyFileRevised envSymDest ["/box"] "/box/s" "/box/ln" true =
      (.error (.dstValidation .symlinkOperationDenied), none) :=
  ⟨c5_amended_dest_uses_vcreate.1 envSymDest ["/box"] "/box/s" "/box/ln"
     "/box/s" "/box/ln" fileInfo (by decide) (by decide) (by decide) (by decide)
     (by decide),
   c5_amended_dest_uses_vcreate.2 envSymDest ["/box"] "/box/s" "/box/ln"
     "/box/s" "/box/ln" fileInfo true (by decide) (by decide) (by decide)
     (by decide) (by decide)⟩

/-! ## Claim C6 -/

/-- C6: the whitespace-normalized fallback match can never be applied by
`HandleEditFile`.  On the file `"  if x:\n    y"` with `oldText = "if x: "`,
`findMatch` finds no exact match and exactly one normalized match, yet the
handler fails with "occurrence 1 out of range" because its occurrence guard
compares against the *exact* match count (zero) even when only normalized
matches exist.  Additionally, had the fallback been reached,
`replaceWithIndentPreservation` emits the *first* replacement line as base
indent plus trimmed body, dropping that line's own leading whitespace. -/
theorem c6_normalized_fallback_never_applies :
    findMatch "  if x:\n    y" "if x: " true =
      .ok ⟨[], [0], "if x:"⟩ ∧
    handleEditFile envEditFallback ["/box"] "/box/f"
        [⟨"if x: ", "done", none, none⟩] false =
      .error (.occurrenceOutOfRange 1 1) ∧
    replaceWithIndentPreservation "  foo\nbar" "foo " "  new" 1 = "  new\nbar" := by
  exact ⟨by decide, by decide, by decide⟩

/-! ## Claim C10 -/

/-- C10: `edit_file` with an empty (or absent, which decodes to empty) edits
array on an existing regular non-symlink file inside the allowed roots,
without dry run, succeeds with "No changes" as its diff and atomically
rewrites the file with its original bytes and original permission bits.
The hypotheses say the target validates to canonical `c`, is a regular file,
and that `c` is stable under normalization/resolution (true of every real
canonical path); the diff hypothesis is the myers property that identical
inputs produce no edits. -/
theorem c10_empty_edits_rewrite_identity :
    ∀ (env : Env) (dirs : List String) (path c content : String)
      (info j : FileInfo),
      validateFinalPath env path dirs = .ok c →
      env.stat c = .ok info → info.isDir = false →
      env.readFile c = .ok content →
      env.myersEditCount content content = 0 →
      c ≠ "" → containsNul c = false →
      normalizePath env c = .ok c →
      env.lstat c = .ok j → j.isSymlink = false →
      env.evalSymlinks c = .ok c →
      handleEditFile env dirs path [] false =
        .ok ⟨"Successfully edited " ++ c ++ "\n\n" ++ "No changes",
             some ⟨c, content, info.perm⟩⟩ := by
  intro env dirs path c content info j hv hstat hdir hread hdiff hcne hcnul
    hnormc hlst hjsym hevalc
  have hne : path ≠ "" := by
    intro h
    rw [h] at hv
    simp [validateFinalPath] at hv
  have hwithin : isPathWithinAllowedDirectories c (resolveAllowedDirs env dirs) =
      true := validateFinalPath_ok hv
  have hvc : validateFinalPathForCreation env c dirs = .ok c := by
    simp [validateFinalPathForCreation, hcne, hcnul, hnormc, hlst, hjsym,
      hevalc, containGate, hwithin]
  simp [handleEditFile, hne, hv, hread, applyEdits, generateUnifiedDiff, hdiff,
    hstat, atomicWriteFile, hvc]

/-- C10 witness: on the concrete root `/box` with file `/box/f` (content
`"hello"`, mode `0644`), the empty edit list succeeds, reports "No changes"
and rewrites the identical bytes with the original permissions. -/
theorem c10_witness :
    handleEditFile envBox ["/box"] "/box/f" [] false =
      .ok ⟨"Successfully edited " ++ "/box/f" ++ "\n\n" ++ "No changes",
           some ⟨"/box/f", "hello", 420⟩⟩ :=
  c10_empty_edits_rewrite_identity envBox ["/box"] "/box/f" "/box/f" "hello"
    fileInfo fileInfo (by decide) (by decide) (by decide) (by decide) (by decide)
    (by decide) (by decide) (by decide) (by decide) (by decide) (by decide)

/-! ## Claim C4 -/

/-- `p` is a safe parent for an `os.Mkdir` call: it is the chosen allowed
root itself, or a directory this very walk created earlier (`made`), or its
`lstat` reported an existing non-symlink directory. -/
def parentOK (env : Env) (root : String) (made : List String) (p : String) : Prop :=
  p = root ∨ p ∈ made ∨
    ∃ i, env.lstat p = .ok i ∧ i.isSymlink = false ∧ i.isDir = true

/-- Every `(parent, child)` mkdir call in the trace has a safe parent, given
the children already created before it. -/
def chainOK (env : Env) (root : String) :
    List (String × String) → List String → Prop
  | [], _ => True
  | e :: rest, made =>
    parentOK env root made e.1 ∧ chainOK env root rest (made ++ [e.2])

/-- The walk's trace accumulator only ever grows by appending: running with
accumulator `acc` equals running with `[]` and prepending `acc`. -/
theorem mkdirWalk_factor (env : Env) (dirs : List String) :
    ∀ (parts : List String) (current : String) (acc : List (String × String)),
      mkdirWalk env dirs parts current acc =
        ((mkdirWalk env dirs parts current []).1,
         acc ++ (mkdirWalk env dirs parts current []).2) := by
  intro parts
  induction parts with
  | nil => intro current acc; simp [mkdirWalk]
  | cons part rest ih =>
    intro current acc
    by_cases hp : part = ""
    · simp only [mkdirWalk, hp, if_pos rfl, ite_true]
      exact ih current acc
    · cases hl : env.lstat (joinPath current part) with
      | ok info =>
        by_cases hs : info.isSymlink
        · simp [mkdirWalk, hp, hl, hs]
        · by_cases hd : info.isDir
          · simp only [mkdirWalk, hp, hl, hs, hd]
            simpa using ih (joinPath current part) acc
          · simp [mkdirWalk, hp, hl, hs, hd]
      | error e =>
        cases e with
        | notExist =>
          cases hv : validatePathForCreation env (joinPath current part) dirs with
          | ok s =>
            rw [show mkdirWalk env dirs (part :: rest) current acc =
                  mkdirWalk env dirs rest (joinPath current part)
                    (acc ++ [(current, joinPath current part)]) from by
                simp [mkdirWalk, hp, hl, hv],
                show mkdirWalk env dirs (part :: rest) current [] =
                  mkdirWalk env dirs rest (joinPath current part)
                    [(current, joinPath current part)] from by
                simp [mkdirWalk, hp, hl, hv]]
            rw [ih (joinPath current part) (acc ++ [(current, joinPath current part)]),
                ih (joinPath current part) [(current, joinPath current part)]]
            simp
          | error e1 => simp [mkdirWalk, hp, hl, hv]
        | other => simp [mkdirWalk, hp, hl]

/-- The mkdir walk only calls `os.Mkdir` on children whose parent is safe. -/
theorem mkdirWalk_chainOK (env : Env) (dirs : List String) (root : String) :
    ∀ (parts : List String) (current : String) (made : List String),
      parentOK env root made current →
      chainOK env root (mkdirWalk env dirs parts current []).2 made := by
  intro parts
  induction parts with
  | nil => intro current made _; simp [mkdirWalk, chainOK]
  | cons part rest ih =>
    intro current made hcur
    by_cases hp : part = ""
    · simp only [mkdirWalk, hp, if_pos rfl, ite_true]
      exact ih current made hcur
    · cases hl : env.lstat (joinPath current part) with
      | ok info =>
        by_cases hs : info.isSymlink
        · simp [mkdirWalk, hp, hl, hs, chainOK]
        · by_cases hd : info.isDir
          · simp only [mkdirWalk, hp, hl, hs, hd]
            have hnext : parentOK env root made (joinPath current part) :=
              Or.inr (Or.inr ⟨info, hl, by simpa using hs, hd⟩)
            simpa using ih (joinPath current part) made hnext
          · simp [mkdirWalk, hp, hl, hs, hd, chainOK]
      | error e =>
        cases e with
        | notExist =>
          cases hv : validatePathForCreation env (joinPath current part) dirs with
          | ok s =>
            rw [show mkdirWalk env dirs (part :: rest) current [] =
                  mkdirWalk env dirs rest (joinPath current part)
                    [(current, joinPath current part)] from by
                simp [mkdirWalk, hp, hl, hv]]
            rw [mkdirWalk_factor env dirs rest (joinPath current part)
                [(current, joinPath current part)]]
            refine And.intro hcur ?_
            exact ih (joinPath current part) (made ++ [joinPath current part])
              (Or.inr (Or.inl (List.mem_append_right made (List.mem_singleton.mpr rfl))))
          | error e1 => simp [mkdirWalk, hp, hl, hv, chainOK]
        | other => simp [mkdirWalk, hp, hl, chainOK]

/-- Every child the mkdir walk creates was re-validated with V-Create at the
moment of creation. -/
theorem mkdirWalk_validated (env : Env) (dirs : List String) :
    ∀ (parts : List String) (current : String),
      ∀ pc ∈ (mkdirWalk env dirs parts current []).2,
        ∃ s, validatePathForCreation env pc.2 dirs = .ok s := by
  intro parts
  induction parts with
  | nil => intro current pc h; simp [mkdirWalk] at h
  | cons part rest ih =>
    intro current pc h
    by_cases hp : part = ""
    · rw [show mkdirWalk env dirs (part :: rest) current [] =
          mkdirWalk env dirs rest current [] by simp [mkdirWalk, hp]] at h
      exact ih current pc h
    · cases hl : env.lstat (joinPath current part) with
      | ok info =>
        by_cases hs : info.isSymlink
        · simp [mkdirWalk, hp, hl, hs] at h
        · by_cases hd : info.isDir
          · rw [show mkdirWalk env dirs (part :: rest) current [] =
                mkdirWalk env dirs rest (joinPath current part) [] by
                  simp [mkdirWalk, hp, hl, hs, hd]] at h
            exact ih (joinPath current part) pc h
          · simp [mkdirWalk, hp, hl, hs, hd] at h
      | error e =>
        cases e with
        | notExist =>
          cases hv : validatePathForCreation env (joinPath current part) dirs with
          | ok s =>
            rw [show mkdirWalk env dirs (part :: rest) current [] =
                mkdirWalk env dirs rest (joinPath current part)
                  [(current, joinPath current part)] by
                  simp [mkdirWalk, hp, hl, hv]] at h
            rw [mkdirWalk_factor env dirs rest (joinPath current part)
                [(current, joinPath current part)]] at h
            rcases List.mem_cons.mp h with hc | hrest
            · exact ⟨s, by rw [hc]; exact hv⟩
            · exact ih (joinPath current part) pc hrest
          | error e1 => simp [mkdirWalk, hp, hl, hv] at h
        | other => simp [mkdirWalk, hp, hl] at h

/-- C4 (amended): `safeMkdirAll` walks the suffix below the longest allowed
root one component at a time, and (1) never calls `os.Mkdir` on a path whose
parent is a symlink, *except* that the chosen allowed root itself is trusted
without an lstat — every mkdir call's parent is the allowed root, a directory
the walk itself just created, or a path whose lstat reported a non-symlink
directory; (2) every created component was re-validated with V-Create; and
(3) when the pre-walk `ValidateNoSymlinksInPath` finds a symlink component
(after V-Create succeeded), `safeMkdirAll` fails with that error and creates
nothing. -/
theorem c4_amended_no_mkdir_through_symlink :
    ∀ (env : Env) (path : String) (dirs : List String),
      (∀ np, normalizePath env path = .ok np →
        chainOK env (longestRoot env np dirs) (safeMkdirAll env path dirs).2 []) ∧
      (∀ pc ∈ (safeMkdirAll env path dirs).2,
        ∃ s, validatePathForCreation env pc.2 dirs = .ok s) ∧
      (∀ np s e, normalizePath env path = .ok np →
        validatePathForCreation env np dirs = .ok s →
        validateNoSymlinksInPath env np dirs = .error e →
        safeMkdirAll env path dirs = (.error e, [])) := by
  intro env path dirs
  refine ⟨?_, ?_, ?_⟩
  · intro np hnp
    unfold safeMkdirAll
    rw [hnp]
    cases hv : validatePathForCreation env np dirs with
    | error e => simp [hv, chainOK]
    | ok s =>
      simp only [hv]
      cases hn : validateNoSymlinksInPath env np dirs with
      | error e => simp [hn, chainOK]
      | ok u =>
        simp only [hn]
        by_cases hroot : longestRoot env np dirs = ""
        · simp [hroot, chainOK]
        · rw [if_neg hroot]
          cases hr : relPath (longestRoot env np dirs) np with
          | error e => simp [hr, chainOK]
          | ok relative =>
            simp only [hr]
            by_cases hdot : relative = "."
            · simp [hdot, chainOK]
            · rw [if_neg hdot]
              exact mkdirWalk_chainOK env dirs (longestRoot env np dirs)
                (strSplitOn '/' relative) (longestRoot env np dirs) []
                (Or.inl rfl)
  · intro pc hpc
    unfold safeMkdirAll at hpc
    cases hnp : normalizePath env path with
    | error e => simp only [hnp] at hpc; simp at hpc
    | ok np =>
      simp only [hnp] at hpc
      cases hv : validatePathForCreation env np dirs with
      | error e => simp only [hv] at hpc; simp at hpc
      | ok s =>
        simp only [hv] at hpc
        cases hn : validateNoSymlinksInPath env np dirs with
        | error e => simp only [hn] at hpc; simp at hpc
        | ok u =>
          simp only [hn] at hpc
          by_cases hroot : longestRoot env np dirs = ""
          · simp only [hroot, if_pos rfl, ite_true] at hpc; simp at hpc
          · rw [if_neg hroot] at hpc
            cases hr : relPath (longestRoot env np dirs) np with
            | error e => simp only [hr] at hpc; simp at hpc
            | ok relative =>
              simp only [hr] at hpc
              by_cases hdot : relative = "."
              · simp only [hdot, if_pos rfl, ite_true] at hpc; simp at hpc
              · rw [if_neg hdot] at hpc
                exact mkdirWalk_validated env dirs (strSplitOn '/' relative)
                  (longestRoot env np dirs) pc hpc
  · intro np s e hnp hv hn
    unfold safeMkdirAll
    simp only [hnp, hv, hn]

/-- C4 counterexample: when the allowed root `/r` is itself a symlink (to the
directory `/real`, as `/tmp` is on macOS), `safeMkdirAll` does call the
OS-level mkdir on `/r/d`, whose parent `/r` is a symbolic link — so the
claim's unconditional "never" is false. -/
theorem c4_counterexample :
    safeMkdirAll envSymRoot "/r/d" ["/r"] = (.ok (), [("/r", "/r/d")]) ∧
    envSymRoot.lstat "/r" = .ok symInfo ∧ symInfo.isSymlink = true := by
  exact ⟨by decide, by decide, by decide⟩

/-- C4 witness: the amended chain invariant and re-validation at the concrete
symlinked-root scenario. -/
theorem c4_witness :
    chainOK envSymRoot (longestRoot envSymRoot "/r/d" ["/r"])
      (safeMkdirAll envSymRoot "/r/d" ["/r"]).2 [] ∧
    ∃ s, validatePathForCreation envSymRoot "/r/d" ["/r"] = .ok s :=
  ⟨(c4_amended_no_mkdir_through_symlink envSymRoot "/r/d" ["/r"]).1 "/r/d"
     (by decide),
   (c4_amended_no_mkdir_through_symlink envSymRoot "/r/d" ["/r"]).2.1
     ("/r", "/r/d") (by decide)⟩

/-! ## Claim C7 -/

/-- The list of formatted lines `rflnLoop` emits from the remaining scanner
tokens `ls` when `lineNum` lines have already been scanned. -/
def rflnPieces (width : Nat) (startLine endLine : Int) :
    List String → Int → List String
  | [], _ => []
  | l :: rest, lineNum =>
    let ln := lineNum + 1
    if ln < startLine then rflnPieces width startLine endLine rest ln
    else if 0 < endLine ∧ endLine < ln then []
    else numberLine width ln.toNat l :: rflnPieces width startLine endLine rest ln

/-- After the first emission, the loop appends a newline before every
further piece. -/
theorem rflnLoop_false (width : Nat) (s e : Int) :
    ∀ (ls : List String) (m : Int) (acc : String),
      rflnLoop width s e ls m acc false =
        acc ++ joinCont (rflnPieces width s e ls m) := by
  intro ls
  induction ls with
  | nil => intro m acc; simp [rflnLoop, rflnPieces, joinCont, String.append_empty]
  | cons l rest ih =>
    intro m acc
    by_cases h1 : m + 1 < s
    · simp only [rflnLoop, rflnPieces, h1, if_pos rfl, ite_true]
      exact ih (m + 1) acc
    · by_cases h2 : 0 < e ∧ e < m + 1
      · simp [rflnLoop, rflnPieces, h1, h2, joinCont, String.append_empty]
      · simp [rflnLoop, rflnPieces, h1, h2, ih, joinCont, String.append_assoc]

/-- The loop started fresh produces exactly the Go-joined pieces. -/
theorem rflnLoop_true (width : Nat) (s e : Int) :
    ∀ (ls : List String) (m : Int),
      rflnLoop width s e ls m "" true =
        joinGo (rflnPieces width s e ls m) := by
  intro ls
  induction ls with
  | nil => intro m; simp [rflnLoop, rflnPieces, joinGo]
  | cons l rest ih =>
    intro m
    by_cases h1 : m + 1 < s
    · simp only [rflnLoop, rflnPieces, h1, if_pos rfl, ite_true]
      exact ih (m + 1)
    · by_cases h2 : 0 < e ∧ e < m + 1
      · simp [rflnLoop, rflnPieces, h1, h2, joinGo]
      · simp [rflnLoop, rflnPieces, h1, h2, rflnLoop_false width s e, joinGo,
          String.empty_append]

/-- The emit window: from scanned position `m` (with `startLine - 1 ≤ m` and
`m + d = endLine`), the pieces are exactly the formatted lines `m+1 .. e`. -/
theorem rflnPieces_window (width : Nat) (sn en : Nat) (full : List String)
    (hs1 : 1 ≤ sn) (hse : sn ≤ en) (hel : en ≤ full.length) :
    ∀ (d m : Nat), sn - 1 ≤ m → m + d = en →
      rflnPieces width (sn : Int) (en : Int) (full.drop m) (m : Int) =
        (List.range' (m + 1) d).map
          (fun k => numberLine width k (full.getD (k - 1) "")) := by
  intro d
  induction d with
  | zero =>
    intro m hsm hm
    cases hdrop : full.drop m with
    | nil => simp [rflnPieces]
    | cons l rest =>
      have h1 : ¬ ((m : Int) + 1 < (sn : Int)) := by
        omega
      have h2 : (0 : Int) < (en : Int) ∧ (en : Int) < (m : Int) + 1 := by
        omega
      simp [rflnPieces, h1, h2]
  | succ d ih =>
    intro m hsm hm
    have hml : m < full.length := by omega
    rw [List.drop_eq_getElem_cons hml]
    have h1 : ¬ ((m : Int) + 1 < (sn : Int)) := by
      omega
    have h2 : ¬ ((0 : Int) < (en : Int) ∧ (en : Int) < (m : Int) + 1) := by
      omega
    simp only [rflnPieces, h1, h2, if_false, ite_false]
    have harg : ((m : Int) + 1).toNat = m + 1 := by omega
    have hgetd : full[m] = full.getD (m + 1 - 1) "" := by
      rw [show m + 1 - 1 = m from rfl]
      exact (List.getD_eq_getElem full "" hml).symm
    rw [harg, hgetd]
    rw [show ((m : Int) + 1) = ((m + 1 : Nat) : Int) by push_cast; ring]
    rw [ih (m + 1) (by omega) (by omega), List.range'_succ, List.map_cons]

/-- The skip phase: the first `startLine - 1` scanner tokens contribute no
pieces. -/
theorem rflnPieces_skip (width : Nat) (sn en : Nat) (full : List String)
    (hs1 : 1 ≤ sn) (hse : sn ≤ en) (hel : en ≤ full.length) :
    ∀ j, j ≤ sn - 1 →
      rflnPieces width (sn : Int) (en : Int) full 0 =
        rflnPieces width (sn : Int) (en : Int) (full.drop j) (j : Int) := by
  intro j
  induction j with
  | zero => intro _; rfl
  | succ j ih =>
    intro hj
    rw [ih (by omega)]
    have hjl : j < full.length := by omega
    rw [List.drop_eq_getElem_cons hjl]
    have h1 : (j : Int) + 1 < (sn : Int) := by
      omega
    simp only [rflnPieces, h1, if_pos rfl, ite_true]
    rw [show ((j : Int) + 1) = ((j + 1 : Nat) : Int) by push_cast; ring]

/-- C7 (amended): for `1 ≤ start ≤ end ≤ L` (the scanner's line count),
`ReadFileWithLineNumbers` emits exactly `end - start + 1` lines, each the
1-based line number right-aligned in the column width *of `end` alone*
(`lineNumberWidth end`) followed by `" | "` and the line text.  (The claim's
`max(end, actual_last_line)` width is what the code does **not** compute:
when `endLine > 0` the file is not counted at all.) -/
theorem c7_amended_range_reader :
    ∀ (content : String) (s e : Int),
      1 ≤ s → s ≤ e → e.toNat ≤ (scanLines content).length →
      readFileWithLineNumbers content s e =
        joinGo ((List.range' s.toNat (e.toNat - s.toNat + 1)).map
          (fun k => numberLine (lineNumberWidth e) k
            ((scanLines content).getD (k - 1) ""))) ∧
      ((List.range' s.toNat (e.toNat - s.toNat + 1)).map
          (fun k => numberLine (lineNumberWidth e) k
            ((scanLines content).getD (k - 1) ""))).length =
        e.toNat - s.toNat + 1 := by
  intro content s e hs hse hel
  obtain ⟨sn, rfl⟩ : ∃ sn : Nat, s = (sn : Int) := ⟨s.toNat, by omega⟩
  obtain ⟨en, rfl⟩ : ∃ en : Nat, e = (en : Int) := ⟨e.toNat, by omega⟩
  have hel2 : en ≤ (scanLines content).length := by omega
  constructor
  · have hnots : ¬ (sn : Int) ≤ 0 := by omega
    have hpose : (0 : Int) < (en : Int) := by omega
    simp only [readFileWithLineNumbers, if_neg hnots, if_pos hpose]
    rw [rflnLoop_true]
    congr 1
    rw [show ((sn : Int)).toNat = sn from by omega,
        show ((en : Int)).toNat = en from by omega]
    rw [rflnPieces_skip (lineNumberWidth (en : Int)) sn en (scanLines content)
      (by omega) (by omega) hel2 (sn - 1) (by omega)]
    rw [rflnPieces_window (lineNumberWidth (en : Int)) sn en (scanLines content)
      (by omega) (by omega) hel2 (en - sn + 1) (sn - 1) (by omega) (by omega)]
    rw [show sn - 1 + 1 = sn from by omega]
  · simp

/-- C7 counterexample: on a ten-line file, reading lines 2..3 yields a
number column of width 1 (the width of `end = 3`), not width 2 (the width of
`max(end, actual_last_line) = 10`) — and in particular not the
space-padded rendering the claim describes. -/
theorem c7_counterexample :
    readFileWithLineNumbers "l1\nl2\nl3\nl4\nl5\nl6\nl7\nl8\nl9\nl10" 2 3 =
      "2 | l2\n3 | l3" ∧
    readFileWithLineNumbers "l1\nl2\nl3\nl4\nl5\nl6\nl7\nl8\nl9\nl10" 2 3 ≠
      " 2 | l2\n 3 | l3" := by
  exact ⟨by decide, by decide⟩

/-- C7 witness: the amended statement evaluated on a five-line file at
`start_line = 2`, `end_line = 3`. -/
theorem c7_witness :
    readFileWithLineNumbers "line1\nline2\nline3\nline4\nline5" 2 3 =
      joinGo ((List.range' 2 2).map
        (fun k => numberLine (lineNumberWidth 3) k
          ((scanLines "line1\nline2\nline3\nline4\nline5").getD (k - 1) ""))) ∧
    ((List.range' 2 2).map
        (fun k => numberLine (lineNumberWidth 3) k
          ((scanLines "line1\nline2\nline3\nline4\nline5").getD (k - 1) ""))).length = 2 :=
  c7_amended_range_reader "line1\nline2\nline3\nline4\nline5" 2 3
    (by decide) (by decide) (by decide)

/-! ## Claim C8 -/

/-- The nonempty segments of a byte sequence split at newlines: the line list
`TailFile` actually reconstructs (empty lines vanish in its backward scan). -/
def neSegs (cs : List Char) : List (List Char) :=
  (splitNL cs).filter (fun s => s ≠ [])

/-- The last `n` elements of a list. -/
def lastN (l : List (List Char)) (n : Nat) : List (List Char) :=
  l.drop (l.length - n)

theorem splitOnChar_ne_nil (sep : Char) : ∀ l, splitOnChar sep l ≠ [] := by
  intro l
  cases l with
  | nil => simp [splitOnChar]
  | cons c rest =>
    simp only [splitOnChar]
    split <;> simp

theorem mem_splitOnChar_no_sep (sep : Char) :
    ∀ l seg, seg ∈ splitOnChar sep l → sep ∉ seg := by
  intro l
  induction l with
  | nil =>
    intro seg h
    simp [splitOnChar] at h
    simp [h]
  | cons c rest ih =>
    intro seg h
    simp only [splitOnChar] at h
    split at h
    · rcases List.mem_cons.mp h with rfl | hm
      · simp
      · exact ih seg hm
    · rcases List.mem_cons.mp h with rfl | hm
      · rcases List.exists_cons_of_ne_nil (splitOnChar_ne_nil sep rest) with ⟨h0, t0, he⟩
        intro hmem
        rcases List.mem_cons.mp hmem with rfl | hm2
        · exact absurd rfl (by assumption)
        · have : (splitOnChar sep rest).headD [] ∈ splitOnChar sep rest := by
            rw [he]; simp
          exact ih _ this hm2
      · have : seg ∈ splitOnChar sep rest := List.mem_of_mem_tail hm
        exact ih seg this

theorem splitOnChar_of_no_sep (sep : Char) :
    ∀ l, (∀ c ∈ l, c ≠ sep) → splitOnChar sep l = [l] := by
  intro l
  induction l with
  | nil => intro _; rfl
  | cons c rest ih =>
    intro h
    have hc : ¬ c = sep := h c (List.mem_cons_self c rest)
    have hrest := ih (fun x hx => h x (List.mem_cons_of_mem c hx))
    simp [splitOnChar, hc, hrest]

theorem getLastD_irrel {α : Type} {l : List α} (h : l ≠ []) (d d2 : α) :
    l.getLastD d = l.getLastD d2 := by
  rcases List.exists_cons_of_ne_nil h with ⟨a, t, rfl⟩
  rw [List.getLastD_cons, List.getLastD_cons]

theorem splitOnChar_append (sep : Char) :
    ∀ (a b : List Char) (h0 : List Char) (t0 : List (List Char)),
      splitOnChar sep b = h0 :: t0 →
      splitOnChar sep (a ++ b) =
        (splitOnChar sep a).dropLast ++
          ((splitOnChar sep a).getLastD [] ++ h0) :: t0 := by
  intro a
  induction a with
  | nil =>
    intro b h0 t0 hb
    simpa [splitOnChar] using hb
  | cons c a ih =>
    intro b h0 t0 hb
    rcases List.exists_cons_of_ne_nil (splitOnChar_ne_nil sep a) with ⟨s0, srest, ha⟩
    have hrec := ih b h0 t0 hb
    by_cases hc : c = sep
    · rw [show (c :: a) ++ b = c :: (a ++ b) from rfl,
          show splitOnChar sep (c :: (a ++ b)) = [] :: splitOnChar sep (a ++ b)
            from by simp [splitOnChar, hc],
          show splitOnChar sep (c :: a) = [] :: splitOnChar sep a
            from by simp [splitOnChar, hc],
          hrec, ha]
      simp [List.getLastD_cons, List.dropLast_cons₂, List.cons_append]
    · rw [show (c :: a) ++ b = c :: (a ++ b) from rfl,
          show splitOnChar sep (c :: (a ++ b)) =
              (c :: (splitOnChar sep (a ++ b)).headD []) ::
                (splitOnChar sep (a ++ b)).tail
            from by simp [splitOnChar, hc],
          show splitOnChar sep (c :: a) =
              (c :: (splitOnChar sep a).headD []) :: (splitOnChar sep a).tail
            from by simp [splitOnChar, hc],
          hrec, ha]
      cases srest with
      | nil =>
        simp [List.getLastD_cons, List.cons_append]
      | cons s1 srest2 =>
        simp [List.tail_cons, List.headD_cons, List.dropLast_cons₂,
          List.getLastD_cons, List.cons_append]

/-- Splitting a suffix extended by a chunk: the chunk merges with the old
leftover (which carries no newline) and the old tail segments survive. -/
theorem splitNL_chunk (chunk leftover rest : List Char)
    (tailSegs : List (List Char))
    (hnl : ∀ c ∈ leftover, c ≠ '\n')
    (hsp : splitNL rest = leftover :: tailSegs) :
    splitNL (chunk ++ rest) = splitNL (chunk ++ leftover) ++ tailSegs := by
  unfold splitNL at *
  have h2 : splitOnChar '\n' leftover = [leftover] :=
    splitOnChar_of_no_sep '\n' leftover hnl
  rw [splitOnChar_append '\n' chunk rest leftover tailSegs hsp,
      splitOnChar_append '\n' chunk leftover leftover [] h2]
  simp

theorem tailFinish_no_prepend (n : Nat) (lines : List (List Char)) :
    (if n < lines.length then lines.drop (lines.length - n) else lines) =
      lastN lines n := by
  by_cases h : n < lines.length
  · simp [lastN, h]
  · simp [lastN, h, Nat.sub_eq_zero_of_le (Nat.le_of_not_lt h)]

theorem lastN_append_right (l1 l2 : List (List Char)) (n : Nat)
    (h : n ≤ l2.length) : lastN (l1 ++ l2) n = lastN l2 n := by
  induction l1 with
  | nil => simp
  | cons a l1 ih =>
    unfold lastN at *
    simp only [List.cons_append, List.length_cons, List.length_append]
    rw [show l1.length + l2.length + 1 - n = (l1.length + l2.length - n) + 1 by omega,
        List.drop_succ_cons]
    simpa [List.length_append] using ih

/-- The post-loop finish is correct at the moment the loop has consumed the
whole file: the remaining leftover is the file's first segment. -/
theorem tailFinish_correct (cs : List Char) (n : Nat) :
    ∀ (leftover : List Char) (tailSegs : List (List Char)),
      splitNL cs = leftover :: tailSegs →
      tailFinish n leftover (tailSegs.filter (fun s => s ≠ [])) =
        lastN (neSegs cs) n := by
  intro leftover tailSegs hsp
  have hne : neSegs cs =
      (if leftover ≠ [] then leftover :: tailSegs.filter (fun s => s ≠ [])
       else tailSegs.filter (fun s => s ≠ [])) := by
    unfold neSegs
    rw [hsp, List.filter_cons]
    split <;> simp_all
  set lines := tailSegs.filter (fun s => s ≠ []) with hlines
  by_cases hlv : leftover = []
  · rw [hne]
    simp only [hlv, ne_eq, not_true_eq_false, if_false, ite_false]
    unfold tailFinish
    simp only [hlv, ne_eq, not_true_eq_false, false_and, if_false, ite_false]
    exact tailFinish_no_prepend n lines
  · rw [hne]
    simp only [hlv, ne_eq, not_false_eq_true, if_true, ite_true]
    unfold tailFinish
    by_cases hlen : lines.length < n
    · simp only [hlv, ne_eq, not_false_eq_true, true_and, hlen, if_true, ite_true]
      have h1 : ¬ n < (leftover :: lines).length := by
        simp only [List.length_cons]; omega
      rw [if_neg h1]
      unfold lastN
      rw [show (leftover :: lines).length - n = 0 by simp only [List.length_cons]; omega]
      simp
    · simp only [hlv, ne_eq, not_false_eq_true, true_and, hlen, if_false, ite_false]
      rw [tailFinish_no_prepend n lines]
      unfold lastN
      simp only [List.length_cons]
      rw [show lines.length + 1 - n = (lines.length - n) + 1 by omega,
          List.drop_succ_cons]

/-- The collected lines are always a suffix of the file's nonempty segments;
once more than `n` of them exist, the finish already has its answer. -/
theorem tailFinish_early (cs : List Char) (n : Nat) (offset : Nat)
    (leftover : List Char) (tailSegs : List (List Char))
    (hsp : splitNL (cs.drop offset) = leftover :: tailSegs)
    (hlen : n < (tailSegs.filter (fun s => s ≠ [])).length) :
    tailFinish n leftover (tailSegs.filter (fun s => s ≠ [])) =
      lastN (neSegs cs) n := by
  set lines := tailSegs.filter (fun s => s ≠ []) with hlines
  have hsplit : splitNL cs =
      ((splitNL (cs.take offset)).dropLast ++
        [(splitNL (cs.take offset)).getLastD [] ++ leftover]) ++ tailSegs := by
    conv_lhs => rw [show cs = cs.take offset ++ cs.drop offset from
      (List.take_append_drop offset cs).symm]
    unfold splitNL at *
    rw [splitOnChar_append '\n' (cs.take offset) (cs.drop offset) leftover
      tailSegs hsp]
    simp
  have hne : neSegs cs =
      ((splitNL (cs.take offset)).dropLast ++
        [(splitNL (cs.take offset)).getLastD [] ++ leftover]).filter
          (fun s => s ≠ []) ++ lines := by
    unfold neSegs
    rw [hsplit, List.filter_append]
  unfold tailFinish
  simp only [show ¬ lines.length < n by omega, and_false, if_false, ite_false]
  rw [tailFinish_no_prepend n lines, hne,
    lastN_append_right _ lines n (by omega)]

/-- Main loop invariant: from any intermediate state consistent with the
unread part of the file, the loop followed by the finish yields the last `n`
nonempty segments of the whole file. -/
theorem tailLoop_correct (cs : List Char) (n : Nat) :
    ∀ (fuel offset : Nat) (leftover : List Char) (tailSegs : List (List Char)),
      offset ≤ fuel → offset ≤ cs.length →
      splitNL (cs.drop offset) = leftover :: tailSegs →
      (fun r => tailFinish n r.1 r.2)
          (tailLoop cs n fuel offset leftover
            (tailSegs.filter (fun s => s ≠ []))) =
        lastN (neSegs cs) n := by
  intro fuel
  induction fuel with
  | zero =>
    intro offset leftover tailSegs hf _ hsp
    have : offset = 0 := by omega
    subst this
    rw [List.drop_zero] at hsp
    simp only [tailLoop]
    exact tailFinish_correct cs n leftover tailSegs hsp
  | succ fuel ih =>
    intro offset leftover tailSegs hf hoff hsp
    by_cases hcond : (tailSegs.filter (fun s => s ≠ [])).length ≤ n ∧ 0 < offset
    · have hstep : tailLoop cs n (fuel + 1) offset leftover
          (tailSegs.filter (fun s => s ≠ [])) =
          tailLoop cs n fuel (offset - min tailChunkSize offset)
            (chunkScan (((cs.drop (offset - min tailChunkSize offset)).take
              (min tailChunkSize offset)) ++ leftover)).2
            ((chunkScan (((cs.drop (offset - min tailChunkSize offset)).take
              (min tailChunkSize offset)) ++ leftover)).1 ++
              tailSegs.filter (fun s => s ≠ [])) := by
        rw [show tailLoop cs n (fuel + 1) offset leftover
            (tailSegs.filter (fun s => s ≠ [])) =
          if (tailSegs.filter (fun s => s ≠ [])).length ≤ n ∧ 0 < offset then _
          else _ from rfl]
        rw [if_pos hcond]
      rw [hstep]
      set readSize := min tailChunkSize offset with hrs
      set offset2 := offset - readSize with ho2
      have h1024 : tailChunkSize = 1024 := rfl
      have hpos : 0 < offset := hcond.2
      have hrs1 : 1 ≤ readSize := by omega
      have hrso : readSize ≤ offset := by omega
      have hdrop : cs.drop offset2 = (cs.drop offset2).take readSize ++ cs.drop offset := by
        conv_lhs => rw [(List.take_append_drop readSize (cs.drop offset2)).symm]
        rw [List.drop_drop, show offset2 + readSize = offset by omega]
      have hnl : ∀ c ∈ leftover, c ≠ '\n' := by
        intro c hc
        have hmem : leftover ∈ splitNL (cs.drop offset) := by
          rw [hsp]; simp
        exact fun he => (mem_splitOnChar_no_sep '\n' (cs.drop offset) leftover hmem)
          (he ▸ hc)
      have hnew : splitNL (cs.drop offset2) =
          splitNL ((cs.drop offset2).take readSize ++ leftover) ++ tailSegs := by
        conv_lhs => rw [hdrop]
        exact splitNL_chunk ((cs.drop offset2).take readSize) leftover
          (cs.drop offset) tailSegs hnl hsp
      rcases List.exists_cons_of_ne_nil
        (splitOnChar_ne_nil '\n' ((cs.drop offset2).take readSize ++ leftover))
        with ⟨d0, drest, hd⟩
      have hnew2 : splitNL (cs.drop offset2) = d0 :: (drest ++ tailSegs) := by
        rw [hnew]
        unfold splitNL
        rw [hd]
        rfl
      have hscan1 : (chunkScan (((cs.drop offset2).take readSize) ++ leftover)).1 =
          drest.filter (fun s => s ≠ []) := by
        unfold chunkScan splitNL
        rw [hd]
        rfl
      have hscan2 : (chunkScan (((cs.drop offset2).take readSize) ++ leftover)).2 = d0 := by
        unfold chunkScan splitNL
        rw [hd]
        rfl
      rw [hscan1, hscan2, ← List.filter_append]
      exact ih offset2 d0 (drest ++ tailSegs) (by omega) (by omega) hnew2
    · have hstop : tailLoop cs n (fuel + 1) offset leftover
          (tailSegs.filter (fun s => s ≠ [])) =
          (leftover, tailSegs.filter (fun s => s ≠ [])) := by
        rw [show tailLoop cs n (fuel + 1) offset leftover
            (tailSegs.filter (fun s => s ≠ [])) =
          if (tailSegs.filter (fun s => s ≠ [])).length ≤ n ∧ 0 < offset then _
          else _ from rfl]
        rw [if_neg hcond]
      rw [hstop]
      by_cases hzero : offset = 0
      · subst hzero
        rw [List.drop_zero] at hsp
        exact tailFinish_correct cs n leftover tailSegs hsp
      · have hgt : n < (tailSegs.filter (fun s => s ≠ [])).length := by
          rcases Decidable.not_and_iff_or_not.mp hcond with h | h
          · omega
          · omega
        exact tailFinish_early cs n offset leftover tailSegs hsp hgt

/-- C8 (amended): for every file content and every `N ≥ 1`, `TailFile`
returns the last `min(N, L')` **nonempty** lines joined with newlines and
without a trailing newline, where `L'` counts the nonempty segments of the
content split on `\n` (a missing final newline still makes the unterminated
tail one line, and lines longer than the 1 KiB chunk are handled by the
growing leftover) — but empty lines are dropped entirely by the backward
scan, so the claim's "last min(N, L) lines" only holds for files with no
empty lines. -/
theorem c8_amended_tail_returns_nonempty_lines :
    ∀ (content : String) (n : Int), 1 ≤ n →
      tailFile content n =
        joinGo ((lastN (neSegs content.data) n.toNat).map String.mk) := by
  intro content n hn
  unfold tailFile
  rw [if_neg (show ¬ n ≤ 0 by omega)]
  by_cases hz : content.data.length = 0
  · rw [if_pos hz]
    have : content.data = [] := List.length_eq_zero.mp hz
    rw [this]
    simp [neSegs, splitNL, splitOnChar, lastN, joinGo]
  · rw [if_neg hz]
    have h := tailLoop_correct content.data n.toNat content.data.length
      content.data.length [] [] (le_refl _) (le_refl _)
      (by rw [List.drop_length]; rfl)
    simp only [List.filter_nil] at h
    exact congrArg (fun l => joinGo (List.map String.mk l)) h

/-- C8 counterexample: on the file `"a\n\nb"` (three lines, the middle one
empty) with `N = 3`, `TailFile` returns `"a\nb"`: the empty line is dropped,
so the output is not the last `min(N, L)` lines of the file. -/
theorem c8_counterexample :
    tailFile "a\n\nb" 3 = "a\nb" ∧ tailFile "a\n\nb" 3 ≠ "a\n\nb" := by
  exact ⟨by decide, by decide⟩

/-- C8 witness: the amended statement evaluated on a concrete
newline-terminated file. -/
theorem c8_witness :
    tailFile "x\ny\nz" 2 =
      joinGo ((lastN (neSegs ("x\ny\nz" : String).data) (2 : Int).toNat).map
        String.mk) :=
  c8_amended_tail_returns_nonempty_lines "x\ny\nz" 2 (by decide)

end FsMcp
